import Mathlib

/-!
Shallow embedding of the data-collection scripts of this repository: the
T-Bank knowledge crawler and its directory cleaner
(data-collection/additional-information/additional-information.py) and the
document parser (data-collection/theoretical-texts/parsing_texts.py).

External collaborators (HTTP transport, BeautifulSoup, urllib, PyPDF2,
python-docx, the filesystem) are opaque to the scripts, so they appear here
as explicit data and function parameters.  Timing (time.sleep), console
printing, tqdm progress bars and the stats counters that feed only the
terminal report are omitted: they carry no state the claims talk about.
Filesystem writes are recorded as events in an append-only trace.
-/

/- ------------------------------------------------------------------ -/
/- Python string primitives, modelled on the character list of a string -/
/- ------------------------------------------------------------------ -/

/-- Characters treated as whitespace by Python str.strip(). -/
def isSpaceC (c : Char) : Bool :=
  c == ' ' || c == '\t' || c == '\n' || c == '\r' || c == '\x0b' || c == '\x0c'

/-- Models Python str.strip(): drop whitespace from both ends.  Also models
BeautifulSoup get_text with strip set, applied to the raw text of a node. -/
def trimS (s : String) : String :=
  String.mk (((s.data.dropWhile isSpaceC).reverse.dropWhile isSpaceC).reverse)

/-- p is a leading segment of l. -/
def isPre : List Char → List Char → Bool
  | [], _ => true
  | _ :: _, [] => false
  | p :: ps, c :: cs => p == c && isPre ps cs

/-- Does some suffix of the second list start with p. -/
def hasSubAux (p : List Char) : List Char → Bool
  | [] => isPre p []
  | c :: cs => isPre p (c :: cs) || hasSubAux p cs

/-- Models the Python expression pattern in url: substring containment. -/
def containsSub (s pat : String) : Bool :=
  hasSubAux pat.data s.data

/-- Models Python str.startswith. -/
def startsWithS (s p : String) : Bool := isPre p.data s.data

/-- Models Python str.endswith. -/
def endsWithS (s p : String) : Bool := isPre p.data.reverse s.data.reverse

/-- Models the Python slice s[n:], counted in code points. -/
def dropS (n : Nat) (s : String) : String := String.mk (s.data.drop n)

/-- Models os.path.basename: the part after the last slash. -/
def basename (s : String) : String :=
  String.mk ((s.data.reverse.takeWhile (fun c => c != '/')).reverse)

/-- The blank-line separator joining content fragments. -/
def nl2 : String := "\n\n"

/- ------------------------------------------------------------------ -/
/- ParserConfig (additional-information.py, class ParserConfig)        -/
/- ------------------------------------------------------------------ -/

/-- The static configuration surface of the crawler.  REQUEST_DELAY,
REQUEST_TIMEOUT, OUTPUT_DIR and USER_AGENT only parameterize timing and
transport, which live behind the opaque fetch function here. -/
structure Config where
  BASE_URL : String
  MAX_RECURSION_DEPTH : Nat
  URL_INCLUDE_PATTERNS : List String
  URL_EXCLUDE_PATTERNS : List String
  MIN_PARAGRAPH_LENGTH : Nat
  CHECKPOINT_ENABLED : Bool
  CHECKPOINT_INTERVAL : Nat
deriving DecidableEq

/-- The concrete values of class ParserConfig in the source. -/
def ParserConfig : Config where
  BASE_URL := "https://www.tbank.ru/invest/help/educate/how-it-works/"
  MAX_RECURSION_DEPTH := 4
  URL_INCLUDE_PATTERNS := ["/invest/help/"]
  URL_EXCLUDE_PATTERNS := ["/login", "/logout", "/api/", ".pdf", ".jpg", ".png", "#"]
  MIN_PARAGRAPH_LENGTH := 10
  CHECKPOINT_ENABLED := true
  CHECKPOINT_INTERVAL := 10

/- ------------------------------------------------------------------ -/
/- Parsed pages (the BeautifulSoup boundary)                           -/
/- ------------------------------------------------------------------ -/

/-- One element of a parsed page, as the crawler consumes it: a tag name
and the raw text under it. -/
structure HtmlElem where
  name : String
  text : String
deriving DecidableEq

/-- A parsed page.  h1 is the raw text of the first heading-1 element, if
any.  anchors are the href values of the anchor elements with an href, in
document order.  containers holds, per entry of content_selectors and in
that order, the result of the find call for that selector: the flat list of
relevant descendant elements of the found container, or none when the
selector matched nothing.  body plays the same role for the body element. -/
structure Soup where
  h1 : Option String
  anchors : List String
  containers : List (Option (List HtmlElem))
  body : Option (List HtmlElem)
deriving DecidableEq

/-- One entry of the sections field of an article. -/
structure ArticleSection where
  heading : String
  content : List String
deriving DecidableEq

/-- The article record built by extract_article_content. -/
structure Article where
  url : String
  title : String
  content : String
  sections : List ArticleSection
deriving DecidableEq

/- ------------------------------------------------------------------ -/
/- Crawl state and event trace                                         -/
/- ------------------------------------------------------------------ -/

/-- Observable actions of one crawl run, in order.  visitE records a call
that passed the visited/depth guard of parse_page; fetchE records a call of
get_page_content; writeArticle records save_article with the running index
that names the file; writeCheckpoint records a checkpoint file
checkpoint_N_articles.json with its article list payload. -/
inductive CrawlEvent where
  | visitE (url : String) (depth : Nat)
  | fetchE (url : String)
  | writeArticle (index : Nat) (art : Article)
  | writeCheckpoint (count : Nat) (arts : List Article)
deriving DecidableEq

/-- The mutable state of TBankKnowledgeParser: visited_urls (a set, kept
here as a duplicate-free list in insertion order), articles, failed_urls,
plus the event trace standing in for console/filesystem effects. -/
structure CrawlState where
  visited : List String
  articles : List Article
  failed : List String
  events : List CrawlEvent
deriving DecidableEq

/-- The fresh state built in the constructor. -/
def initState : CrawlState where
  visited := []
  articles := []
  failed := []
  events := []

/-- The environment of one parser instance: the configuration plus the
opaque urllib functions urljoin and urlparse().netloc, and the network,
mapping a url to its parsed page or to none for any transport/HTTP error. -/
structure Ctx where
  cfg : Config
  urljoin : String → String → String
  netloc : String → String
  pages : String → Option Soup

/-- self.allowed_domain, computed in the constructor from BASE_URL. -/
def Ctx.allowedDomain (c : Ctx) : String := c.netloc c.cfg.BASE_URL

/- ------------------------------------------------------------------ -/
/- TBankKnowledgeParser methods                                        -/
/- ------------------------------------------------------------------ -/

/-- get_page_content: one GET.  Logs the fetch; on failure appends the url
to failed_urls and returns none. -/
def get_page_content (c : Ctx) (st : CrawlState) (url : String) :
    Option Soup × CrawlState :=
  let st1 := { st with events := st.events ++ [CrawlEvent.fetchE url] }
  match c.pages url with
  | some soup => (some soup, st1)
  | none => (none, { st1 with failed := st1.failed ++ [url] })

/-- is_valid_url: false on the first exclude pattern contained in the url,
else true on the first include pattern contained in it, else false. -/
def is_valid_url (cfg : Config) (url : String) : Bool :=
  if cfg.URL_EXCLUDE_PATTERNS.any (fun pat => containsSub url pat) then false
  else cfg.URL_INCLUDE_PATTERNS.any (fun pat => containsSub url pat)

/-- Insertion into the Python set of links, determinized in arrival order. -/
def setAdd (l : List String) (u : String) : List String :=
  if u ∈ l then l else l ++ [u]

/-- extract_links: resolve every anchor href against the current url, keep
it when it is on the allowed domain, passes is_valid_url and is not yet
visited. -/
def extract_links (c : Ctx) (visited : List String) (soup : Option Soup)
    (currentUrl : String) : List String :=
  match soup with
  | none => []
  | some s =>
    s.anchors.foldl
      (fun links href =>
        let full_url := c.urljoin currentUrl href
        if c.netloc full_url ≠ c.allowedDomain then links
        else if ¬ is_valid_url c.cfg full_url then links
        else if full_url ∈ visited then links
        else setAdd links full_url)
      []

/-- The selector fallback loop over content_selectors: the first selector
whose find call succeeded wins. -/
def firstSome : List (Option (List HtmlElem)) → Option (List HtmlElem)
  | [] => none
  | some c :: _ => some c
  | none :: rest => firstSome rest

/-- Title extraction: text of the first heading-1 when present, else the
empty string default. -/
def titleOf (s : Soup) : String :=
  match s.h1 with
  | some t => trimS t
  | none => ""

/-- The content_parts loop: stripped text of every p/li/h2/h3/h4 element
that is nonempty and longer than MIN_PARAGRAPH_LENGTH. -/
def contentParts (cfg : Config) (elems : List HtmlElem) : List String :=
  elems.filterMap fun elem =>
    if elem.name == "p" || elem.name == "li" || elem.name == "h2" ||
        elem.name == "h3" || elem.name == "h4" then
      let text := trimS elem.text
      if text ≠ "" ∧ cfg.MIN_PARAGRAPH_LENGTH < text.length then some text
      else none
    else none

/-- Is the element a heading-2 or heading-3. -/
def isH23 (e : HtmlElem) : Bool := e.name == "h2" || e.name == "h3"

/-- Is the element a paragraph or list container collected into a section. -/
def isPL (e : HtmlElem) : Bool := e.name == "p" || e.name == "ul" || e.name == "ol"

/-- The inner sibling loop of the sections pass: walk the elements after a
heading, break on the next h2/h3, collect nonempty stripped text of
p/ul/ol elements. -/
def sectionContent : List HtmlElem → List String
  | [] => []
  | sibling :: rest =>
    if isH23 sibling then []
    else if isPL sibling then
      let text := trimS sibling.text
      if text ≠ "" then text :: sectionContent rest else sectionContent rest
    else sectionContent rest

/-- The outer sections pass: one entry per h2/h3 element in order, kept
only when its collected content is nonempty. -/
def extractSections : List HtmlElem → List ArticleSection
  | [] => []
  | elem :: rest =>
    if isH23 elem then
      (if (sectionContent rest).isEmpty then []
       else [{ heading := trimS elem.text, content := sectionContent rest }]) ++
        extractSections rest
    else extractSections rest

/-- The main_content lookup: the selector chain with body as last resort. -/
def mainContentOf (s : Soup) : Option (List HtmlElem) :=
  match firstSome s.containers with
  | some mc => some mc
  | none => s.body

/-- The article record built for a fetched page: defaults everywhere, title
from the first h1, and content and sections filled only when a main
container exists. -/
def articleOf (cfg : Config) (s : Soup) (url : String) : Article :=
  match mainContentOf s with
  | some mc =>
    { url := url, title := titleOf s,
      content := String.intercalate nl2 (contentParts cfg mc),
      sections := extractSections mc }
  | none =>
    { url := url, title := titleOf s, content := "", sections := [] }

/-- extract_article_content: none only when the fetch failed (soup is
none), otherwise the article record of the page. -/
def extract_article_content (cfg : Config) (soup : Option Soup) (url : String) :
    Option Article :=
  match soup with
  | none => none
  | some s => some (articleOf cfg s url)

/-- save_checkpoint: when checkpointing is enabled and the article count is
a positive multiple of CHECKPOINT_INTERVAL, write all articles so far into
checkpoint_N_articles.json, recorded as a writeCheckpoint event. -/
def save_checkpoint (cfg : Config) (st : CrawlState) : CrawlState :=
  if cfg.CHECKPOINT_ENABLED = false then st
  else if st.articles.length % cfg.CHECKPOINT_INTERVAL = 0 ∧ 0 < st.articles.length then
    { st with events :=
        st.events ++ [CrawlEvent.writeCheckpoint st.articles.length st.articles] }
  else st

/-- The acceptance block of parse_page (append, save_article with the
running index, save_checkpoint), reached when the extracted article has
nonempty content. -/
def acceptArticle (cfg : Config) (st : CrawlState) (a : Article) : CrawlState :=
  let st1 := { st with articles := st.articles ++ [a] }
  let article_index := st1.articles.length
  let st2 := { st1 with events := st1.events ++ [CrawlEvent.writeArticle article_index a] }
  save_checkpoint cfg st2

/-- The straight-line body of one parse_page call after its guard: mark
visited, fetch, extract the article and accept it when its content is
nonempty.  Returns the fetched soup for the link-extraction step. -/
def bodyStep (c : Ctx) (url : String) (depth : Nat) (st : CrawlState) :
    Option Soup × CrawlState :=
  let st1 := { st with visited := st.visited ++ [url],
                       events := st.events ++ [CrawlEvent.visitE url depth] }
  let r := get_page_content c st1 url
  match extract_article_content c.cfg r.1 url with
  | some a => (r.1, if a.content ≠ "" then acceptArticle c.cfg r.2 a else r.2)
  | none => (r.1, r.2)

/-- parse_page.  The source recursion terminates because every recursive
call deepens by one and the guard stops past max_depth; the fuel argument
makes that depth budget explicit (every call keeps
maxDepth + 1 - depth ≤ fuel, so the fuel-out branch is never taken from
runCrawler).  A call is a no-op when the url is already visited or the
depth exceeds maxDepth; otherwise it runs bodyStep and, only when depth is
strictly below maxDepth, recurses depth-first on every extracted link at
depth + 1. -/
def parse_page (c : Ctx) : Nat → String → Nat → Nat → CrawlState → CrawlState
  | 0, _, _, _, st => st
  | fuel + 1, url, depth, maxDepth, st =>
    if url ∈ st.visited ∨ maxDepth < depth then st
    else if depth < maxDepth then
      (extract_links c (bodyStep c url depth st).2.visited (bodyStep c url depth st).1
          url).foldl
        (fun s link => parse_page c fuel link (depth + 1) maxDepth s)
        (bodyStep c url depth st).2
    else (bodyStep c url depth st).2

/-- The run method: parse_page on BASE_URL at depth 0 with the configured
maximum depth, from the fresh state. -/
def runCrawler (c : Ctx) : CrawlState :=
  parse_page c (c.cfg.MAX_RECURSION_DEPTH + 1) c.cfg.BASE_URL 0
    c.cfg.MAX_RECURSION_DEPTH initState

/-- The urls passed to get_page_content, in order. -/
def fetchesOf (evs : List CrawlEvent) : List String :=
  evs.filterMap fun e =>
    match e with
    | CrawlEvent.fetchE u => some u
    | _ => none

/-- The (url, depth) pairs that passed the parse_page guard, in order. -/
def visitsOf (evs : List CrawlEvent) : List (String × Nat) :=
  evs.filterMap fun e =>
    match e with
    | CrawlEvent.visitE u d => some (u, d)
    | _ => none

/-- The checkpoint writes of a trace, in order. -/
def checkpointsOf (evs : List CrawlEvent) : List (Nat × List Article) :=
  evs.filterMap fun e =>
    match e with
    | CrawlEvent.writeCheckpoint n arts => some (n, arts)
    | _ => none

/-- The shape every accepted article has: nonempty content that is the
blank-line join of fragments, each the stripped text of some element,
nonempty and longer than MIN_PARAGRAPH_LENGTH. -/
def GoodA (cfg : Config) (a : Article) : Prop :=
  a.content ≠ "" ∧
    ∃ parts : List String, a.content = String.intercalate nl2 parts ∧
      ∀ p ∈ parts, (∃ raw, p = trimS raw) ∧ p ≠ "" ∧
        cfg.MIN_PARAGRAPH_LENGTH < p.length

/- ------------------------------------------------------------------ -/
/- DirectoryCleaner (additional-information.py)                        -/
/- ------------------------------------------------------------------ -/

/-- One file of the output directory, as the cleaner reads it: its name,
the url field of its JSON payload (empty when absent) and an abstract rest
of the payload, preserved by shutil.copy2.  A file the cleaner cannot
parse behaves like one with an empty url: it is kept and never registered,
so the empty-url case covers it. -/
structure JFile where
  name : String
  url : String
  blob : Nat
deriving DecidableEq

/-- File name suffix and prefixes the cleaner matches on. -/
def jsonExt : String := ".json"

/-- Prefix of checkpoint files. -/
def ckHead : String := "checkpoint_"

/-- Prefix of the aggregate file. -/
def allHead : String := "all_"

/-- The glob pattern of every cleaner step restricts to JSON files. -/
def jsonName (n : String) : Bool := endsWithS n jsonExt

/-- The names skipped by steps 1 to 3: checkpoint and aggregate files. -/
def skipAll (n : String) : Bool := startsWithS n ckHead || startsWithS n allHead

/-- A file the duplicate and numbering passes look at. -/
def scannedF (f : JFile) : Bool := jsonName f.name && !skipAll f.name

/-- The index-prefix test of steps 2 and 3: more than four characters, the
first three digits, an underscore fourth. -/
def numberedName (n : String) : Bool :=
  decide (4 < n.data.length) && (n.data.take 3).all Char.isDigit &&
    n.data.get? 3 == some '_'

/-- A file that step 3 deletes and step 2 copies from. -/
def rnCond (f : JFile) : Bool := scannedF f && numberedName f.name

/-- The remove_duplicates loop with its files_by_url accumulator, kept as
the list of registered urls: the first file of each nonempty url is
registered and kept, later files with a registered url are unlinked. -/
def rdAux : List String → List JFile → List JFile
  | _, [] => []
  | seen, f :: rest =>
    if scannedF f then
      if f.url = "" then f :: rdAux seen rest
      else if f.url ∈ seen then rdAux seen rest
      else f :: rdAux (f.url :: seen) rest
    else f :: rdAux seen rest

/-- Step 1 of DirectoryCleaner.run. -/
def remove_duplicates (d : List JFile) : List JFile := rdAux [] d

/-- The remove_numbering loop: cur is the live directory, the second list
the snapshot being iterated.  Each index-prefixed file is copied to its
unprefixed name unless a file of that name already exists. -/
def rnAux : List JFile → List JFile → List JFile
  | cur, [] => cur
  | cur, f :: rest =>
    if rnCond f then
      if cur.all (fun g => g.name ≠ dropS 4 f.name) then
        rnAux (cur ++ [{ f with name := dropS 4 f.name }]) rest
      else rnAux cur rest
    else rnAux cur rest

/-- The copies remove_numbering creates, in creation order. -/
def rnNew : List JFile → List JFile → List JFile
  | _, [] => []
  | cur, f :: rest =>
    if rnCond f then
      if cur.all (fun g => g.name ≠ dropS 4 f.name) then
        { f with name := dropS 4 f.name } ::
          rnNew (cur ++ [{ f with name := dropS 4 f.name }]) rest
      else rnNew cur rest
    else rnNew cur rest

/-- Step 2 of DirectoryCleaner.run. -/
def remove_numbering (d : List JFile) : List JFile := rnAux d d

/-- Step 3 of DirectoryCleaner.run: delete the index-prefixed files. -/
def remove_numbered_files (d : List JFile) : List JFile :=
  d.filter fun f => !rnCond f

/-- Step 4 of DirectoryCleaner.run: delete checkpoint_*.json. -/
def remove_checkpoints (d : List JFile) : List JFile :=
  d.filter fun f => !(startsWithS f.name ckHead && jsonName f.name)

/-- DirectoryCleaner.run: the four mutating steps in order (verify_cleanup
and print_stats only print). -/
def cleanerRun (d : List JFile) : List JFile :=
  remove_checkpoints (remove_numbered_files (remove_numbering (remove_duplicates d)))

/-- A file the duplicate pass registers: scanned and with a nonempty url. -/
def relevantP (f : JFile) : Prop := scannedF f = true ∧ f.url ≠ ""

/-- Distinctness of urls between two registered files. -/
def urlP (f g : JFile) : Prop := relevantP f → relevantP g → f.url ≠ g.url

/-- Distinctness of urls, required only of files step 3 keeps. -/
def urlQ (f g : JFile) : Prop :=
  rnCond f = false → rnCond g = false → urlP f g

/- ------------------------------------------------------------------ -/
/- FileParser (parsing_texts.py)                                       -/
/- ------------------------------------------------------------------ -/

/-- The PDF metadata fields parse_pdf copies (already stringified). -/
structure PdfMeta where
  title : String
  author : String
  subject : String
  creator : String
  producer : String
  creation_date : String
  modification_date : String
deriving DecidableEq

/-- What a successful PyPDF2 read yields: metadata and per-page text. -/
structure PdfData where
  meta : PdfMeta
  pages : List String
deriving DecidableEq

/-- The DOCX core properties parse_docx copies (already stringified). -/
structure DocxMeta where
  title : String
  author : String
  subject : String
  keywords : String
  comments : String
  created : String
  modified : String
deriving DecidableEq

/-- What a successful python-docx read yields: metadata, the raw text of
each paragraph in order, and the cell texts of each table. -/
structure DocxData where
  meta : DocxMeta
  paragraphs : List String
  tables : List (List (List String))
deriving DecidableEq

/-- The environment of FileParser: the filesystem existence test and the
two opaque readers, which either yield parsed data or raise (error). -/
structure FileEnv where
  fileExists : String → Bool
  readPdf : String → Except String PdfData
  readDocx : String → Except String DocxData

/-- One page entry of a PDF result: page number (1-based) and text. -/
structure PdfPageText where
  page : Nat
  text : String
deriving DecidableEq

/-- The result dictionaries the parser returns, one constructor per dict
shape the source builds. -/
inductive ParsedDict where
  | pdfOk (file_name : String) (metadata : PdfMeta) (page_count : Nat)
      (content : List PdfPageText)
  | pdfErr (file_name : String) (msg : String)
  | docxOk (file_name : String) (metadata : DocxMeta) (paragraph_count : Nat)
      (table_count : Nat) (paragraphs : List (Nat × String))
      (tables : List (Nat × List (List String)))
  | docxErr (file_name : String) (msg : String)
  | missing (file_name : String) (msg : String)
  | unsupported (file_name : String) (msg : String)
deriving DecidableEq

/-- The keys of each result dictionary, as the source writes them. -/
def ParsedDict.keys : ParsedDict → List String
  | .pdfOk _ _ _ _ => ["file_name", "file_type", "metadata", "page_count", "content"]
  | .pdfErr _ _ => ["file_name", "file_type", "error"]
  | .docxOk _ _ _ _ _ _ =>
      ["file_name", "file_type", "metadata", "paragraph_count", "table_count",
       "paragraphs", "tables"]
  | .docxErr _ _ => ["file_name", "file_type", "error"]
  | .missing _ _ => ["file_name", "error"]
  | .unsupported _ _ => ["file_name", "error"]

/-- The file_name value every result dictionary carries. -/
def ParsedDict.fileName : ParsedDict → String
  | .pdfOk n _ _ _ => n
  | .pdfErr n _ => n
  | .docxOk n _ _ _ _ _ => n
  | .docxErr n _ => n
  | .missing n _ => n
  | .unsupported n _ => n

/-- Error message prefixes and fixed messages of parsing_texts.py. -/
def pdfErrHead : String := "Ошибка при чтении PDF: "

/-- Error message prefix of parse_docx. -/
def docxErrHead : String := "Ошибка при чтении DOCX: "

/-- Message for a missing file in parse_all_files. -/
def notFoundMsg : String := "Файл не найден"

/-- Message for an unsupported extension in parse_all_files. -/
def unsupportedMsg : String := "Неподдерживаемый формат файла"

/-- File type tags. -/
def pdfTag : String := ".pdf"

/-- DOCX extension. -/
def docxTag : String := ".docx"

/-- parse_pdf: on a successful read, the dict with metadata, page count and
1-based page texts; on any exception, the error dict.  Both carry
file_name and file_type. -/
def parse_pdf (env : FileEnv) (file_path : String) : ParsedDict :=
  match env.readPdf file_path with
  | Except.ok d =>
      ParsedDict.pdfOk (basename file_path) d.meta d.pages.length
        (d.pages.enum.map fun pt => { page := pt.1 + 1, text := pt.2 })
  | Except.error e => ParsedDict.pdfErr (basename file_path) (pdfErrHead ++ e)

/-- parse_docx: on a successful read, the dict with metadata, the nonblank
paragraphs with their original 1-based numbers, and the tables with
1-based numbers; on any exception, the error dict. -/
def parse_docx (env : FileEnv) (file_path : String) : ParsedDict :=
  match env.readDocx file_path with
  | Except.ok d =>
      let paragraphs := d.paragraphs.enum.filterMap fun it =>
        if trimS it.2 ≠ "" then some (it.1 + 1, it.2) else none
      let tables := d.tables.enum.map fun it => (it.1 + 1, it.2)
      ParsedDict.docxOk (basename file_path) d.meta paragraphs.length
        tables.length paragraphs tables
  | Except.error e => ParsedDict.docxErr (basename file_path) (docxErrHead ++ e)

/-- The hardcoded supported file list of FileParser. -/
def supported_files : List String :=
  ["Antti_Ilmanen_Expected_Returns_A.pdf",
   "Hoi,_Steven_C_H___Li,_Bin_Online.pdf",
   "Hull_J_C_-Options_Futures_and_Other_Derivatives_9th_edition.pdf",
   "MOEX_bonds.pdf",
   "MOEX_futures_options.pdf",
   "MOEX_indexes.docx",
   "Richard Grinold Active_Portfolio_Management_A_quantitative_approach_for_providing.pdf"]

/-- parse_all_files: one result per supported file, in list order; a
missing file yields the not-found error dict, a name with neither
extension the unsupported error dict. -/
def parse_all_files (env : FileEnv) : List ParsedDict :=
  supported_files.map fun file_name =>
    if env.fileExists file_name = false then ParsedDict.missing file_name notFoundMsg
    else if endsWithS file_name pdfTag then parse_pdf env file_name
    else if endsWithS file_name docxTag then parse_docx env file_name
    else ParsedDict.unsupported file_name unsupportedMsg

/- ------------------------------------------------------------------ -/
/- Concrete instances used by the witnesses and counterexamples        -/
/- ------------------------------------------------------------------ -/

/-- A small configuration exercising the crawler: depth 1, the allow/deny
scenario of the spec. -/
def testCfg : Config where
  BASE_URL := "https://ex.com/help/"
  MAX_RECURSION_DEPTH := 1
  URL_INCLUDE_PATTERNS := ["/help/"]
  URL_EXCLUDE_PATTERNS := ["/login"]
  MIN_PARAGRAPH_LENGTH := 10
  CHECKPOINT_ENABLED := true
  CHECKPOINT_INTERVAL := 10

/-- A concrete urljoin for the test site: absolute hrefs pass through,
path hrefs resolve against the host. -/
def urljoinT (_base href : String) : String :=
  if startsWithS href "https://" then href else "https://ex.com" ++ href

/-- A concrete netloc for the test site. -/
def netlocT (u : String) : String :=
  if startsWithS u "https://ex.com" then "ex.com" else "other.com"

/-- The start page: one long paragraph in the first matched container, four
outbound links (two eligible, one deny-listed, one cross-domain). -/
def soup0 : Soup where
  h1 := some "Root"
  anchors := ["/help/a", "/help/b", "/login", "https://other.com/help/c"]
  containers := [some [{ name := "p", text := "This paragraph is long enough." }],
                 none, none, none]
  body := none

/-- The page behind /help/a: content only through the body fallback. -/
def soupA : Soup where
  h1 := some "Page A"
  anchors := []
  containers := [none, none, none, none]
  body := some [{ name := "p", text := "Another sufficiently long paragraph." }]

/-- The test network: the start page and /help/a parse, /help/b fails. -/
def pagesT (u : String) : Option Soup :=
  if u = "https://ex.com/help/" then some soup0
  else if u = "https://ex.com/help/a" then some soupA
  else none

/-- The test crawler instance. -/
def testCtx : Ctx where
  cfg := testCfg
  urljoin := urljoinT
  netloc := netlocT
  pages := pagesT

/-- A fetched page with no selector match and no body element. -/
def noBodySoup : Soup where
  h1 := none
  anchors := []
  containers := [none, none, none, none]
  body := none

/-- Siblings after a heading-2: paragraph, heading-3, paragraph. -/
def es8 : List HtmlElem :=
  [{ name := "h2", text := "Heading Two" },
   { name := "p", text := "first paragraph text" },
   { name := "h3", text := "Sub Heading" },
   { name := "p", text := "second paragraph text" }]

/-- Articles used to exercise the checkpoint block. -/
def artX : Article := { url := "u1", title := "t1", content := "c1", sections := [] }

/-- Second test article. -/
def artY : Article := { url := "u2", title := "t2", content := "c2", sections := [] }

/-- Third test article. -/
def artZ : Article := { url := "u3", title := "t3", content := "c3", sections := [] }

/-- Checkpoint interval three for the checkpoint witness. -/
def cfg3 : Config := { testCfg with CHECKPOINT_INTERVAL := 3 }

/-- A state with two accepted articles. -/
def st2a : CrawlState where
  visited := ["v1", "v2"]
  articles := [artX, artY]
  failed := []
  events := []

/-- A document-parser environment where every file is missing and both
readers raise. -/
def envT : FileEnv where
  fileExists := fun _ => false
  readPdf := fun _ => Except.error "io"
  readDocx := fun _ => Except.error "io"

/-- A directory exercising the cleaner: a duplicate url, two numbered
files, a checkpoint and the aggregate file. -/
def dirT : List JFile :=
  [{ name := "001_alpha.json", url := "https://ex.com/a", blob := 1 },
   { name := "002_beta.json", url := "https://ex.com/a", blob := 2 },
   { name := "003_gamma.json", url := "https://ex.com/c", blob := 3 },
   { name := "checkpoint_10_articles.json", url := "", blob := 4 },
   { name := "all_articles.json", url := "", blob := 5 }]

/- ------------------------------------------------------------------ -/
/- Generic helpers                                                     -/
/- ------------------------------------------------------------------ -/

/-- A predicate preserved by every step of a fold is preserved by the fold. -/
theorem foldl_preserve {α β : Type} (P : β → Prop) (f : β → α → β)
    (h : ∀ s a, P s → P (f s a)) : ∀ (l : List α) (s : β), P s → P (l.foldl f s)
  | [], _, hs => hs
  | a :: l, s, hs => foldl_preserve P f h l (f s a) (h s a hs)

/-- Membership after inserting into the link set. -/
theorem mem_setAdd {l : List String} {u v : String} :
    v ∈ setAdd l u ↔ v ∈ l ∨ v = u := by
  unfold setAdd
  split
  · rename_i hu
    constructor
    · exact Or.inl
    · rintro (h | rfl)
      · exact h
      · exact hu
  · simp [List.mem_append]

/- ------------------------------------------------------------------ -/
/- Trace projections                                                   -/
/- ------------------------------------------------------------------ -/

/-- fetchesOf distributes over appending traces. -/
theorem fetchesOf_append (l1 l2 : List CrawlEvent) :
    fetchesOf (l1 ++ l2) = fetchesOf l1 ++ fetchesOf l2 := by
  simp [fetchesOf, List.filterMap_append]

/-- visitsOf distributes over appending traces. -/
theorem visitsOf_append (l1 l2 : List CrawlEvent) :
    visitsOf (l1 ++ l2) = visitsOf l1 ++ visitsOf l2 := by
  simp [visitsOf, List.filterMap_append]

/-- checkpointsOf distributes over appending traces. -/
theorem checkpointsOf_append (l1 l2 : List CrawlEvent) :
    checkpointsOf (l1 ++ l2) = checkpointsOf l1 ++ checkpointsOf l2 := by
  simp [checkpointsOf, List.filterMap_append]

/-- A visit event adds no fetch. -/
theorem fetchesOf_visit (u : String) (d : Nat) (l : List CrawlEvent) :
    fetchesOf (CrawlEvent.visitE u d :: l) = fetchesOf l := rfl

/-- A fetch event records its url. -/
theorem fetchesOf_fetch (u : String) (l : List CrawlEvent) :
    fetchesOf (CrawlEvent.fetchE u :: l) = u :: fetchesOf l := rfl

/-- An article write adds no fetch. -/
theorem fetchesOf_wa (n : Nat) (a : Article) (l : List CrawlEvent) :
    fetchesOf (CrawlEvent.writeArticle n a :: l) = fetchesOf l := rfl

/-- A checkpoint write adds no fetch. -/
theorem fetchesOf_wc (n : Nat) (arts : List Article) (l : List CrawlEvent) :
    fetchesOf (CrawlEvent.writeCheckpoint n arts :: l) = fetchesOf l := rfl

/-- A visit event records its url and depth. -/
theorem visitsOf_visit (u : String) (d : Nat) (l : List CrawlEvent) :
    visitsOf (CrawlEvent.visitE u d :: l) = (u, d) :: visitsOf l := rfl

/-- A fetch event adds no visit. -/
theorem visitsOf_fetch (u : String) (l : List CrawlEvent) :
    visitsOf (CrawlEvent.fetchE u :: l) = visitsOf l := rfl

/-- An article write adds no visit. -/
theorem visitsOf_wa (n : Nat) (a : Article) (l : List CrawlEvent) :
    visitsOf (CrawlEvent.writeArticle n a :: l) = visitsOf l := rfl

/-- A checkpoint write adds no visit. -/
theorem visitsOf_wc (n : Nat) (arts : List Article) (l : List CrawlEvent) :
    visitsOf (CrawlEvent.writeCheckpoint n arts :: l) = visitsOf l := rfl

/- ------------------------------------------------------------------ -/
/- Canonical forms of the persistence steps                            -/
/- ------------------------------------------------------------------ -/

/-- save_checkpoint only ever appends the conditional checkpoint event. -/
theorem save_checkpoint_eq (cfg : Config) (st : CrawlState) :
    save_checkpoint cfg st =
      { st with events := st.events ++
          (if cfg.CHECKPOINT_ENABLED = true ∧
              st.articles.length % cfg.CHECKPOINT_INTERVAL = 0 ∧
              0 < st.articles.length then
            [CrawlEvent.writeCheckpoint st.articles.length st.articles]
          else []) } := by
  rcases st with ⟨v, arts, fl, evs⟩
  unfold save_checkpoint
  rcases hE : cfg.CHECKPOINT_ENABLED <;> simp [hE] <;> split_ifs <;> simp_all

/-- acceptArticle appends the article, its write event, and the checkpoint
event exactly when the new count is a multiple of the interval. -/
theorem acceptArticle_eq (cfg : Config) (st : CrawlState) (a : Article) :
    acceptArticle cfg st a =
      { st with articles := st.articles ++ [a],
                events := st.events ++
                  CrawlEvent.writeArticle (st.articles.length + 1) a ::
                  (if cfg.CHECKPOINT_ENABLED = true ∧
                      (st.articles.length + 1) % cfg.CHECKPOINT_INTERVAL = 0 then
                    [CrawlEvent.writeCheckpoint (st.articles.length + 1)
                      (st.articles ++ [a])]
                  else []) } := by
  rcases st with ⟨v, arts, fl, evs⟩
  unfold acceptArticle
  rw [save_checkpoint_eq]
  simp only [List.length_append, List.length_singleton, Nat.lt_irrefl]
  split_ifs <;> simp_all [List.append_assoc]

/- ------------------------------------------------------------------ -/
/- One visit body: effect on each state component                      -/
/- ------------------------------------------------------------------ -/

/-- The body of a visit adds exactly its url to the visited set. -/
theorem bodyStep_visited (c : Ctx) (url : String) (depth : Nat) (st : CrawlState) :
    (bodyStep c url depth st).2.visited = st.visited ++ [url] := by
  unfold bodyStep get_page_content
  cases hp : c.pages url <;>
    simp [extract_article_content, acceptArticle_eq] <;> split <;> simp


/-- The body of a visit performs exactly one fetch, of its url. -/
theorem bodyStep_fetches (c : Ctx) (url : String) (depth : Nat) (st : CrawlState) :
    fetchesOf (bodyStep c url depth st).2.events = fetchesOf st.events ++ [url] := by
  unfold bodyStep get_page_content
  cases hp : c.pages url
  · simp [extract_article_content, fetchesOf, List.filterMap_append]
  · rename_i s
    simp only [extract_article_content]
    by_cases hc : (articleOf c.cfg s url).content ≠ ""
    · by_cases hk : c.cfg.CHECKPOINT_ENABLED = true ∧
          (st.articles.length + 1) % c.cfg.CHECKPOINT_INTERVAL = 0 <;>
        simp [hc, hk, acceptArticle_eq, fetchesOf, List.filterMap_append]
    · simp [hc, fetchesOf, List.filterMap_append]

/-- The body of a visit records exactly one visit, at its depth. -/
theorem bodyStep_visits (c : Ctx) (url : String) (depth : Nat) (st : CrawlState) :
    visitsOf (bodyStep c url depth st).2.events = visitsOf st.events ++ [(url, depth)] := by
  unfold bodyStep get_page_content
  cases hp : c.pages url
  · simp [extract_article_content, visitsOf, List.filterMap_append]
  · rename_i s
    simp only [extract_article_content]
    by_cases hc : (articleOf c.cfg s url).content ≠ ""
    · by_cases hk : c.cfg.CHECKPOINT_ENABLED = true ∧
          (st.articles.length + 1) % c.cfg.CHECKPOINT_INTERVAL = 0 <;>
        simp [hc, hk, acceptArticle_eq, visitsOf, List.filterMap_append]
    · simp [hc, visitsOf, List.filterMap_append]

/-- The body of a visit only appends to the event trace. -/
theorem bodyStep_events_ext (c : Ctx) (url : String) (depth : Nat) (st : CrawlState) :
    ∃ t, (bodyStep c url depth st).2.events = st.events ++ t := by
  unfold bodyStep get_page_content
  cases hp : c.pages url
  · refine ⟨[CrawlEvent.visitE url depth, CrawlEvent.fetchE url], ?_⟩
    simp [extract_article_content]
  · rename_i s
    simp only [extract_article_content]
    by_cases hc : (articleOf c.cfg s url).content ≠ ""
    · refine ⟨CrawlEvent.visitE url depth :: CrawlEvent.fetchE url ::
        CrawlEvent.writeArticle (st.articles.length + 1) (articleOf c.cfg s url) ::
        (if c.cfg.CHECKPOINT_ENABLED = true ∧
            (st.articles.length + 1) % c.cfg.CHECKPOINT_INTERVAL = 0 then
          [CrawlEvent.writeCheckpoint (st.articles.length + 1)
            (st.articles ++ [articleOf c.cfg s url])]
        else []), ?_⟩
      simp [hc, acceptArticle_eq]
    · refine ⟨[CrawlEvent.visitE url depth, CrawlEvent.fetchE url], ?_⟩
      simp [hc]

/-- The body of a visit adds at most one article-or-failure. -/
theorem bodyStep_count (c : Ctx) (url : String) (depth : Nat) (st : CrawlState) :
    (bodyStep c url depth st).2.articles.length + (bodyStep c url depth st).2.failed.length ≤
      st.articles.length + st.failed.length + 1 := by
  unfold bodyStep get_page_content
  cases hp : c.pages url
  · simp [extract_article_content]
    omega
  · rename_i s
    simp only [extract_article_content]
    by_cases hc : (articleOf c.cfg s url).content ≠ "" <;>
      simp [hc, acceptArticle_eq] <;> omega

/-- Every fragment of the content loop is stripped, nonempty and long. -/
theorem contentParts_spec (cfg : Config) (es : List HtmlElem) :
    ∀ p ∈ contentParts cfg es,
      (∃ raw, p = trimS raw) ∧ p ≠ "" ∧ cfg.MIN_PARAGRAPH_LENGTH < p.length := by
  intro p hp
  simp only [contentParts, List.mem_filterMap] at hp
  obtain ⟨e, _, hcond⟩ := hp
  split at hcond
  · split at hcond
    · rename_i hgood
      cases hcond
      exact ⟨⟨e.text, rfl⟩, hgood.1, hgood.2⟩
    · cases hcond
  · cases hcond

/-- A page article with nonempty content has the accepted shape. -/
theorem articleOf_good (cfg : Config) (s : Soup) (url : String)
    (h : (articleOf cfg s url).content ≠ "") : GoodA cfg (articleOf cfg s url) := by
  refine ⟨h, ?_⟩
  unfold articleOf at h ⊢
  cases hmc : mainContentOf s
  · rw [hmc] at h
    exact absurd rfl h
  · rename_i mc
    exact ⟨contentParts cfg mc, rfl, contentParts_spec cfg mc⟩

/-- Every article the body of a visit adds has the accepted shape. -/
theorem bodyStep_articles (c : Ctx) (url : String) (depth : Nat) (st : CrawlState) :
    ∀ a ∈ (bodyStep c url depth st).2.articles, a ∈ st.articles ∨ GoodA c.cfg a := by
  intro a ha
  unfold bodyStep get_page_content at ha
  cases hp : c.pages url
  · rw [hp] at ha
    simp [extract_article_content] at ha
    exact Or.inl ha
  · rename_i s
    rw [hp] at ha
    simp only [extract_article_content] at ha
    by_cases hc : (articleOf c.cfg s url).content ≠ ""
    · simp [hc, acceptArticle_eq, List.mem_append] at ha
      rcases ha with ha | rfl
      · exact Or.inl ha
      · exact Or.inr (articleOf_good c.cfg s url hc)
    · simp [hc] at ha
      exact Or.inl ha

/- ------------------------------------------------------------------ -/
/- Invariants of the traversal                                         -/
/- ------------------------------------------------------------------ -/

/-- Any state predicate preserved by every visit body is preserved by
parse_page, whatever the fuel, url, depth and bound. -/
theorem parse_page_preserve (c : Ctx) (P : CrawlState → Prop)
    (hbody : ∀ url depth st, url ∉ st.visited → P st → P (bodyStep c url depth st).2) :
    ∀ (fuel : Nat) (url : String) (depth maxDepth : Nat) (st : CrawlState),
      P st → P (parse_page c fuel url depth maxDepth st) := by
  intro fuel
  induction fuel with
  | zero => exact fun _ _ _ _ h => h
  | succ fuel ih =>
    intro url depth M st h
    simp only [parse_page]
    split
    · exact h
    · rename_i hguard
      have hnm : url ∉ st.visited := fun hm => hguard (Or.inl hm)
      split
      · exact foldl_preserve P _ (fun s a hs => ih a (depth + 1) M s hs) _ _
          (hbody url depth st hnm h)
      · exact hbody url depth st hnm h

/-- Preservation refined with the guard: a visit body only ever runs at a
depth within the bound. -/
theorem parse_page_preserve_depth (c : Ctx) (M : Nat) (P : CrawlState → Prop)
    (hbody : ∀ url depth st, url ∉ st.visited → depth ≤ M → P st →
      P (bodyStep c url depth st).2) :
    ∀ (fuel : Nat) (url : String) (depth : Nat) (st : CrawlState),
      P st → P (parse_page c fuel url depth M st) := by
  intro fuel
  induction fuel with
  | zero => exact fun _ _ _ h => h
  | succ fuel ih =>
    intro url depth st h
    simp only [parse_page]
    split
    · exact h
    · rename_i hguard
      have hnm : url ∉ st.visited := fun hm => hguard (Or.inl hm)
      have hd : depth ≤ M := Nat.le_of_not_lt fun hm => hguard (Or.inr hm)
      split
      · exact foldl_preserve P _ (fun s a hs => ih a (depth + 1) s hs) _ _
          (hbody url depth st hnm hd h)
      · exact hbody url depth st hnm hd h

/-- parse_page only ever appends to the event trace. -/
theorem parse_page_events_ext (c : Ctx) (l0 : List CrawlEvent) :
    ∀ (fuel : Nat) (url : String) (depth M : Nat) (st : CrawlState),
      l0 <+: st.events → l0 <+: (parse_page c fuel url depth M st).events := by
  intro fuel url depth M st h
  refine parse_page_preserve c (fun s => l0 <+: s.events) ?_ fuel url depth M st h
  intro url depth st _ hp
  obtain ⟨t, ht⟩ := bodyStep_events_ext c url depth st
  rw [ht]
  exact hp.trans (List.prefix_append _ t)

/- ------------------------------------------------------------------ -/
/- Claims about the traversal                                          -/
/- ------------------------------------------------------------------ -/

/-- Claim C1: in every run, each url enters the visited set at most once
and is never fetched twice: the visited list of a run stays
duplicate-free, the fetched urls are pairwise distinct, and every fetched
url is in the visited set. -/
theorem crawler_fetch_once (c : Ctx) :
    (runCrawler c).visited.Nodup ∧
    (fetchesOf (runCrawler c).events).Nodup ∧
    ∀ u ∈ fetchesOf (runCrawler c).events, u ∈ (runCrawler c).visited := by
  have key : (runCrawler c).visited.Nodup ∧
      ∀ u, (fetchesOf (runCrawler c).events).count u ≤ (runCrawler c).visited.count u := by
    refine parse_page_preserve c
      (fun st => st.visited.Nodup ∧
        ∀ u, (fetchesOf st.events).count u ≤ st.visited.count u)
      ?_ _ _ _ _ _ ⟨List.nodup_nil, fun u => by simp [initState, fetchesOf]⟩
    intro url depth st hnm hP
    constructor
    · rw [bodyStep_visited]
      simp [List.nodup_append, hP.1, hnm]
    · intro u
      rw [bodyStep_visited, bodyStep_fetches, List.count_append, List.count_append]
      exact Nat.add_le_add (hP.2 u) (Nat.le_refl _)
  refine ⟨key.1, ?_, ?_⟩
  · rw [List.nodup_iff_count_le_one]
    intro u
    exact Nat.le_trans (key.2 u) (List.nodup_iff_count_le_one.mp key.1 u)
  · intro u hu
    exact List.count_pos_iff.mp
      (Nat.lt_of_lt_of_le (List.count_pos_iff.mpr hu) (key.2 u))

/-- Witness for C1 on the concrete test crawl. -/
theorem crawler_fetch_once_witness :
    "https://ex.com/help/b" ∈ fetchesOf (runCrawler testCtx).events ∧
    "https://ex.com/help/b" ∈ (runCrawler testCtx).visited :=
  ⟨by decide, (crawler_fetch_once testCtx).2.2 "https://ex.com/help/b" (by decide)⟩

/-- The first event of a run is the visit of the start url at depth 0. -/
theorem run_first_visit (c : Ctx) :
    (visitsOf (runCrawler c).events).head? = some (c.cfg.BASE_URL, 0) := by
  have h1 : (bodyStep c c.cfg.BASE_URL 0 initState).2.events <+: (runCrawler c).events := by
    unfold runCrawler
    simp only [parse_page]
    rw [if_neg (by simp [initState])]
    split
    · exact foldl_preserve (fun s => (bodyStep c c.cfg.BASE_URL 0 initState).2.events <+: s.events)
        _ (fun s a hs => parse_page_events_ext c _ _ _ _ _ s hs) _ _
        (List.prefix_refl _)
    · exact List.prefix_refl _
  obtain ⟨t, ht⟩ := h1
  rw [← ht, visitsOf_append, bodyStep_visits]
  simp [initState, visitsOf]

/-- Claim C2: parse_page is a no-op past the depth bound, every visit of a
run happens at depth at most the configured maximum, and the run starts by
visiting the start url at depth 0 (children recurse at depth + 1 only below
the bound, so no visit exceeds it). -/
theorem crawler_depth_bound (c : Ctx) :
    (∀ (fuel : Nat) (url : String) (depth maxDepth : Nat) (st : CrawlState),
      maxDepth < depth → parse_page c fuel url depth maxDepth st = st) ∧
    (∀ p ∈ visitsOf (runCrawler c).events, p.2 ≤ c.cfg.MAX_RECURSION_DEPTH) ∧
    (visitsOf (runCrawler c).events).head? = some (c.cfg.BASE_URL, 0) := by
  refine ⟨?_, ?_, run_first_visit c⟩
  · intro fuel url depth M st h
    cases fuel
    · rfl
    · simp only [parse_page]
      rw [if_pos (Or.inr h)]
  · refine parse_page_preserve_depth c c.cfg.MAX_RECURSION_DEPTH
      (fun st => ∀ p ∈ visitsOf st.events, p.2 ≤ c.cfg.MAX_RECURSION_DEPTH)
      ?_ _ _ _ _ (by simp [initState, visitsOf])
    intro url depth st _ hd hP p hp
    rw [bodyStep_visits] at hp
    rcases List.mem_append.mp hp with h | h
    · exact hP p h
    · rw [List.mem_singleton] at h
      rw [h]
      exact hd

/-- Witness for C2: a call past the bound is a no-op, and the visits of the
test run stay within depth 1 starting at the start url. -/
theorem crawler_depth_bound_witness :
    parse_page testCtx 5 "https://ex.com/help/x" 2 1 initState = initState ∧
    ("https://ex.com/help/a", 1).2 ≤ testCtx.cfg.MAX_RECURSION_DEPTH ∧
    (visitsOf (runCrawler testCtx).events).head? = some (testCtx.cfg.BASE_URL, 0) :=
  ⟨(crawler_depth_bound testCtx).1 5 "https://ex.com/help/x" 2 1 initState (by decide),
   (crawler_depth_bound testCtx).2.1 ("https://ex.com/help/a", 1) (by decide),
   (crawler_depth_bound testCtx).2.2⟩

/-- Claim C3: at every point of a run the visited set holds at least as
many urls as accepted articles plus failed urls together: the inequality
is preserved by every parse_page call and holds of the full run from the
empty initial state. -/
theorem crawler_count_invariant (c : Ctx) :
    (∀ (fuel : Nat) (url : String) (depth maxDepth : Nat) (st : CrawlState),
      st.articles.length + st.failed.length ≤ st.visited.length →
      (parse_page c fuel url depth maxDepth st).articles.length +
          (parse_page c fuel url depth maxDepth st).failed.length ≤
        (parse_page c fuel url depth maxDepth st).visited.length) ∧
    (runCrawler c).articles.length + (runCrawler c).failed.length ≤
      (runCrawler c).visited.length := by
  have hbody : ∀ (url : String) (depth : Nat) (st : CrawlState), url ∉ st.visited →
      st.articles.length + st.failed.length ≤ st.visited.length →
      (bodyStep c url depth st).2.articles.length + (bodyStep c url depth st).2.failed.length ≤
        (bodyStep c url depth st).2.visited.length := by
    intro url depth st _ h
    have h1 := bodyStep_count c url depth st
    have h2 : (bodyStep c url depth st).2.visited.length = st.visited.length + 1 := by
      rw [bodyStep_visited]
      simp
    omega
  exact ⟨fun fuel url depth M st h =>
      parse_page_preserve c
        (fun s => s.articles.length + s.failed.length ≤ s.visited.length)
        (fun u d s hnm hp => hbody u d s hnm hp) fuel url depth M st h,
    parse_page_preserve c
      (fun s => s.articles.length + s.failed.length ≤ s.visited.length)
      (fun u d s hnm hp => hbody u d s hnm hp) _ _ _ _ _ (by simp [initState])⟩

/-- Witness for C3 on the concrete test crawl. -/
theorem crawler_count_invariant_witness :
    (parse_page testCtx 2 "https://ex.com/help/" 0 1 initState).articles.length +
        (parse_page testCtx 2 "https://ex.com/help/" 0 1 initState).failed.length ≤
      (parse_page testCtx 2 "https://ex.com/help/" 0 1 initState).visited.length :=
  (crawler_count_invariant testCtx).1 2 "https://ex.com/help/" 0 1 initState (by decide)

/-- Every stored article of any run has the accepted shape. -/
theorem run_articles_good (c : Ctx) :
    ∀ a ∈ (runCrawler c).articles, GoodA c.cfg a := by
  refine parse_page_preserve c (fun st => ∀ a ∈ st.articles, GoodA c.cfg a)
    ?_ _ _ _ _ _ (by simp [initState])
  intro url depth st _ hP a ha
  rcases bodyStep_articles c url depth st a ha with h | h
  · exact hP a h
  · exact h

/-- Claim C4: every article a run accepts has nonempty content equal to the
blank-line join of fragments, each the stripped text of some element,
nonempty and strictly longer than MIN_PARAGRAPH_LENGTH; an article with
empty extracted content is never stored. -/
theorem crawler_article_content (c : Ctx) :
    ∀ a ∈ (runCrawler c).articles,
      a.content ≠ "" ∧
      ∃ parts : List String, a.content = String.intercalate nl2 parts ∧
        ∀ p ∈ parts, (∃ raw, p = trimS raw) ∧ p ≠ "" ∧
          c.cfg.MIN_PARAGRAPH_LENGTH < p.length :=
  fun a ha => run_articles_good c a ha

/-- Witness for C4: the first article of the test run. -/
theorem crawler_article_content_witness :
    articleOf testCfg soup0 "https://ex.com/help/" ∈ (runCrawler testCtx).articles ∧
    (articleOf testCfg soup0 "https://ex.com/help/").content ≠ "" :=
  ⟨by decide,
   (crawler_article_content testCtx (articleOf testCfg soup0 "https://ex.com/help/")
     (by decide)).1⟩

/-- One step of the link filter: the candidate joins the set exactly when
it is on-domain, pattern-valid and unvisited. -/
theorem linkStep_mem (c : Ctx) (visited acc : List String) (v u : String) :
    (u ∈ (if c.netloc v ≠ c.allowedDomain then acc
          else if ¬ is_valid_url c.cfg v then acc
          else if v ∈ visited then acc
          else setAdd acc v)) ↔
      u ∈ acc ∨ (u = v ∧ c.netloc u = c.allowedDomain ∧
        is_valid_url c.cfg u = true ∧ u ∉ visited) := by
  by_cases h1 : c.netloc v ≠ c.allowedDomain
  · rw [if_pos h1]
    constructor
    · exact Or.inl
    · rintro (h | ⟨rfl, hd, -, -⟩)
      · exact h
      · exact absurd hd h1
  · rw [if_neg h1]
    by_cases h2 : is_valid_url c.cfg v = true
    · rw [if_neg (not_not_intro h2)]
      by_cases h3 : v ∈ visited
      · rw [if_pos h3]
        constructor
        · exact Or.inl
        · rintro (h | ⟨rfl, -, -, hnv⟩)
          · exact h
          · exact absurd h3 hnv
      · rw [if_neg h3, mem_setAdd]
        constructor
        · rintro (h | rfl)
          · exact Or.inl h
          · exact Or.inr ⟨rfl, not_not.mp h1, h2, h3⟩
        · rintro (h | ⟨rfl, -, -, -⟩)
          · exact Or.inl h
          · exact Or.inr rfl
    · rw [if_pos h2]
      constructor
      · exact Or.inl
      · rintro (h | ⟨rfl, -, hv, -⟩)
        · exact h
        · exact absurd hv h2

/-- Membership in the link-filter fold over the anchors. -/
theorem extract_links_aux (c : Ctx) (visited : List String) (currentUrl u : String) :
    ∀ (anchors : List String) (acc : List String),
      (u ∈ anchors.foldl
          (fun links href =>
            if c.netloc (c.urljoin currentUrl href) ≠ c.allowedDomain then links
            else if ¬ is_valid_url c.cfg (c.urljoin currentUrl href) then links
            else if c.urljoin currentUrl href ∈ visited then links
            else setAdd links (c.urljoin currentUrl href)) acc) ↔
        u ∈ acc ∨ ∃ href ∈ anchors,
          u = c.urljoin currentUrl href ∧ c.netloc u = c.allowedDomain ∧
          is_valid_url c.cfg u = true ∧ u ∉ visited := by
  intro anchors
  induction anchors with
  | nil => intro acc; simp
  | cons href t ih =>
    intro acc
    rw [List.foldl_cons, ih, linkStep_mem]
    simp only [List.exists_mem_cons_iff]
    tauto

/-- Claim C5: a url is returned by extract_links exactly when it is the
resolution of some anchor href against the current url, lies on the
allowed domain, passes the pattern filter and is not yet visited; and
passing the pattern filter means containing no exclude pattern and at
least one include pattern. -/
theorem extract_links_spec (c : Ctx) (visited : List String) (s : Soup)
    (currentUrl u : String) :
    ((u ∈ extract_links c visited (some s) currentUrl) ↔
      ∃ href ∈ s.anchors,
        u = c.urljoin currentUrl href ∧ c.netloc u = c.allowedDomain ∧
        is_valid_url c.cfg u = true ∧ u ∉ visited) ∧
    (is_valid_url c.cfg u = true ↔
      (∀ pat ∈ c.cfg.URL_EXCLUDE_PATTERNS, containsSub u pat = false) ∧
      ∃ pat ∈ c.cfg.URL_INCLUDE_PATTERNS, containsSub u pat = true) := by
  constructor
  · have h := extract_links_aux c visited currentUrl u s.anchors []
    simp only [List.not_mem_nil, false_or] at h
    exact h
  · unfold is_valid_url
    split
    · rename_i hex
      constructor
      · intro h
        cases h
      · rintro ⟨hall, -⟩
        obtain ⟨pat, hpat, hc⟩ := List.any_eq_true.mp hex
        have := hall pat hpat
        simp_all
    · rename_i hex
      have hexc : ∀ pat ∈ c.cfg.URL_EXCLUDE_PATTERNS, containsSub u pat = false := by
        intro pat hp
        by_contra hne
        exact hex (List.any_eq_true.mpr ⟨pat, hp, by simpa using hne⟩)
      constructor
      · intro h
        exact ⟨hexc, by simpa using List.any_eq_true.mp h⟩
      · rintro ⟨-, h⟩
        exact List.any_eq_true.mpr (by simpa using h)

/-- Witness for C5: the deny-listed login link of the test page is
excluded, the first help link is returned. -/
theorem extract_links_spec_witness :
    "https://ex.com/help/a" ∈
      extract_links testCtx ["https://ex.com/help/"] (some soup0) "https://ex.com/help/" ∧
    is_valid_url testCtx.cfg "https://ex.com/login" = false := by
  constructor
  · exact (extract_links_spec testCtx ["https://ex.com/help/"] soup0
      "https://ex.com/help/" "https://ex.com/help/a").1.mpr
      ⟨"/help/a", by decide, by decide, by decide, by decide, by decide⟩
  · decide

/- ------------------------------------------------------------------ -/
/- Claim C6: checkpoint discipline                                     -/
/- ------------------------------------------------------------------ -/

/-- Claim C6: with checkpointing enabled at interval K, accepting the N-th
article appends its write event and then a checkpoint event exactly when N
is a positive multiple of K (N is st.articles.length + 1, positive by
construction, and N % K = 0 states K divides N), whose payload is exactly
the N articles accepted so far. -/
theorem checkpoint_discipline (cfg : Config) (st : CrawlState) (a : Article)
    (hE : cfg.CHECKPOINT_ENABLED = true) :
    (acceptArticle cfg st a).articles = st.articles ++ [a] ∧
    (acceptArticle cfg st a).events =
      st.events ++ CrawlEvent.writeArticle (st.articles.length + 1) a ::
        (if (st.articles.length + 1) % cfg.CHECKPOINT_INTERVAL = 0 then
          [CrawlEvent.writeCheckpoint (st.articles.length + 1) (st.articles ++ [a])]
        else []) ∧
    (st.articles ++ [a]).length = st.articles.length + 1 := by
  rw [acceptArticle_eq]
  simp [hE]

/-- Witness for C6: with interval 3, the third accepted article triggers a
checkpoint holding exactly the three articles; with interval 10 it does
not. -/
theorem checkpoint_discipline_witness :
    (acceptArticle cfg3 st2a artZ).events =
      [CrawlEvent.writeArticle 3 artZ, CrawlEvent.writeCheckpoint 3 [artX, artY, artZ]] ∧
    (acceptArticle testCfg st2a artZ).events = [CrawlEvent.writeArticle 3 artZ] :=
  ⟨((checkpoint_discipline cfg3 st2a artZ rfl).2.1).trans (by decide),
   ((checkpoint_discipline testCfg st2a artZ rfl).2.1).trans (by decide)⟩

/- ------------------------------------------------------------------ -/
/- Claim C7: behaviour without container and body                      -/
/- ------------------------------------------------------------------ -/

/-- Counterexample to C7 as stated: on a successfully fetched page with no
matching main-content container and no body element,
extract_article_content does not return none — it returns the default
article record. -/
theorem extract_article_no_body_counterexample :
    extract_article_content ParserConfig (some noBodySoup) "https://x" ≠ none := by
  decide

/-- Claim C7 (amended): extract_article_content returns none exactly when
the fetch failed (soup is none); for a fetched page with no matching
container and no body it returns the article record with every absent
field defaulted to the empty value (empty content, no sections, title from
the first h1 or empty), and no article with empty content is ever stored
by a run. -/
theorem extract_article_defaults (cfg : Config) (url : String) :
    extract_article_content cfg none url = none ∧
    (∀ s : Soup, firstSome s.containers = none → s.body = none →
      extract_article_content cfg (some s) url =
        some { url := url, title := titleOf s, content := "", sections := [] }) ∧
    (∀ (c : Ctx), ∀ a ∈ (runCrawler c).articles, a.content ≠ "") := by
  refine ⟨rfl, ?_, ?_⟩
  · intro s h1 h2
    simp [extract_article_content, articleOf, mainContentOf, h1, h2]
  · intro c a ha
    exact (run_articles_good c a ha).1

/-- Witness for the amended C7 on the concrete page without container or
body. -/
theorem extract_article_defaults_witness :
    extract_article_content ParserConfig (some noBodySoup) "https://x" =
      some { url := "https://x", title := "", content := "", sections := [] } :=
  ((extract_article_defaults ParserConfig "https://x").2.1 noBodySoup
    (by decide) (by decide)).trans (by decide)

/- ------------------------------------------------------------------ -/
/- Claim C8: section collection stops at any h2/h3                     -/
/- ------------------------------------------------------------------ -/

/-- Counterexample to C8 as stated: after a heading-2, a following
heading-3 sibling does terminate the collection — the section of the
heading-2 holds only the first paragraph, not both. -/
theorem sections_stop_counterexample :
    extractSections es8 =
      [{ heading := "Heading Two", content := ["first paragraph text"] },
       { heading := "Sub Heading", content := ["second paragraph text"] }] ∧
    (extractSections es8).head? ≠
      some { heading := "Heading Two",
             content := ["first paragraph text", "second paragraph text"] } := by
  decide

/-- Claim C8 (amended): each section holds exactly the nonempty stripped
texts of the p/ul/ol siblings that follow its heading up to the next
heading-2 or heading-3 of either level — an h3 ends the section of an h2
as well; one section entry is built per h2/h3, kept only when nonempty. -/
theorem sections_stop_at_h23 :
    (∀ l : List HtmlElem, sectionContent l =
      (l.takeWhile fun e => !isH23 e).filterMap fun e =>
        if isPL e then (if trimS e.text ≠ "" then some (trimS e.text) else none)
        else none) ∧
    (∀ (e : HtmlElem) (rest : List HtmlElem),
      (isH23 e = true → extractSections (e :: rest) =
        (if (sectionContent rest).isEmpty then []
         else [{ heading := trimS e.text, content := sectionContent rest }]) ++
          extractSections rest) ∧
      (isH23 e = false → extractSections (e :: rest) = extractSections rest)) := by
  constructor
  · intro l
    induction l with
    | nil => rfl
    | cons e rest ih =>
      by_cases h : isH23 e
      · simp [sectionContent, h, List.takeWhile_cons]
      · by_cases hPL : isPL e
        · by_cases ht : trimS e.text ≠ "" <;>
            simp [sectionContent, h, hPL, ht, List.takeWhile_cons, ih]
        · simp [sectionContent, h, hPL, List.takeWhile_cons, ih]
  · intro e rest
    constructor <;> intro h <;> simp [extractSections, h]

/-- Witness for the amended C8 on the concrete sibling list. -/
theorem sections_stop_at_h23_witness :
    sectionContent es8 = [] ∧
    extractSections es8 =
      [{ heading := "Heading Two", content := ["first paragraph text"] },
       { heading := "Sub Heading", content := ["second paragraph text"] }] :=
  ⟨((sections_stop_at_h23).1 es8).trans (by decide),
   (((sections_stop_at_h23).2 { name := "h2", text := "Heading Two" }
       [{ name := "p", text := "first paragraph text" },
        { name := "h3", text := "Sub Heading" },
        { name := "p", text := "second paragraph text" }]).1 rfl).trans (by decide)⟩

/- ------------------------------------------------------------------ -/
/- Claim C10: the document parser never drops a file                   -/
/- ------------------------------------------------------------------ -/

/-- The per-file dispatch of parse_all_files. -/
theorem parse_all_files_eq (env : FileEnv) :
    parse_all_files env = supported_files.map fun file_name =>
      if env.fileExists file_name = false then ParsedDict.missing file_name notFoundMsg
      else if endsWithS file_name pdfTag then parse_pdf env file_name
      else if endsWithS file_name docxTag then parse_docx env file_name
      else ParsedDict.unsupported file_name unsupportedMsg := rfl

/-- Every entry of the hardcoded list is a bare name. -/
theorem supported_files_basename : ∀ fn ∈ supported_files, basename fn = fn := by
  decide

/-- The dispatch result always carries the file name of its entry. -/
theorem processOne_fileName (env : FileEnv) (fn : String) (h : basename fn = fn) :
    ParsedDict.fileName
      (if env.fileExists fn = false then ParsedDict.missing fn notFoundMsg
       else if endsWithS fn pdfTag then parse_pdf env fn
       else if endsWithS fn docxTag then parse_docx env fn
       else ParsedDict.unsupported fn unsupportedMsg) = basename fn := by
  rw [h]
  split_ifs
  · rfl
  · cases hr : env.readPdf fn <;> simp [parse_pdf, hr, ParsedDict.fileName, h]
  · cases hr : env.readDocx fn <;> simp [parse_docx, hr, ParsedDict.fileName, h]
  · rfl

/-- Claim C10: parse_pdf and parse_docx always return a dictionary with
file_name and file_type keys, with an error key instead of content
exactly when the read raised; and parse_all_files returns one result per
supported file, in list order, keeping every file name, with an error
dictionary (not an omission) for a missing file. -/
theorem file_parser_total (env : FileEnv) :
    (∀ p : String,
      "file_name" ∈ (parse_pdf env p).keys ∧ "file_type" ∈ (parse_pdf env p).keys ∧
      (∀ e, env.readPdf p = Except.error e →
        "error" ∈ (parse_pdf env p).keys ∧ "content" ∉ (parse_pdf env p).keys) ∧
      (∀ d, env.readPdf p = Except.ok d →
        "error" ∉ (parse_pdf env p).keys ∧ "content" ∈ (parse_pdf env p).keys)) ∧
    (∀ p : String,
      "file_name" ∈ (parse_docx env p).keys ∧ "file_type" ∈ (parse_docx env p).keys ∧
      (∀ e, env.readDocx p = Except.error e →
        "error" ∈ (parse_docx env p).keys ∧ "paragraphs" ∉ (parse_docx env p).keys) ∧
      (∀ d, env.readDocx p = Except.ok d →
        "error" ∉ (parse_docx env p).keys ∧ "paragraphs" ∈ (parse_docx env p).keys)) ∧
    (parse_all_files env).length = supported_files.length ∧
    (parse_all_files env).map ParsedDict.fileName = supported_files ∧
    (∀ (i : Nat) (fn : String), supported_files.get? i = some fn →
      env.fileExists fn = false →
      (parse_all_files env).get? i = some (ParsedDict.missing fn notFoundMsg)) := by
  refine ⟨?_, ?_, ?_, ?_, ?_⟩
  · intro p
    cases hr : env.readPdf p with
    | ok d =>
      refine ⟨by simp [parse_pdf, hr, ParsedDict.keys],
        by simp [parse_pdf, hr, ParsedDict.keys], ?_, ?_⟩
      · intro e he
        cases he
      · intro d' _
        simp [parse_pdf, hr, ParsedDict.keys]
    | error e =>
      refine ⟨by simp [parse_pdf, hr, ParsedDict.keys],
        by simp [parse_pdf, hr, ParsedDict.keys], ?_, ?_⟩
      · intro e' _
        simp [parse_pdf, hr, ParsedDict.keys]
      · intro d' hd
        cases hd
  · intro p
    cases hr : env.readDocx p with
    | ok d =>
      refine ⟨by simp [parse_docx, hr, ParsedDict.keys],
        by simp [parse_docx, hr, ParsedDict.keys], ?_, ?_⟩
      · intro e he
        cases he
      · intro d' _
        simp [parse_docx, hr, ParsedDict.keys]
    | error e =>
      refine ⟨by simp [parse_docx, hr, ParsedDict.keys],
        by simp [parse_docx, hr, ParsedDict.keys], ?_, ?_⟩
      · intro e' _
        simp [parse_docx, hr, ParsedDict.keys]
      · intro d' hd
        cases hd
  · rw [parse_all_files_eq, List.length_map]
  · rw [parse_all_files_eq, List.map_map]
    have h : ∀ fn ∈ supported_files,
        (ParsedDict.fileName ∘ fun file_name =>
          if env.fileExists file_name = false then ParsedDict.missing file_name notFoundMsg
          else if endsWithS file_name pdfTag then parse_pdf env file_name
          else if endsWithS file_name docxTag then parse_docx env file_name
          else ParsedDict.unsupported file_name unsupportedMsg) fn = id fn := by
      intro fn hfn
      have hb := supported_files_basename fn hfn
      simpa [hb] using processOne_fileName env fn hb
    rw [List.map_congr_left h, List.map_id]
  · intro i fn hi hmiss
    rw [parse_all_files_eq, List.get?_map, hi]
    simp [hmiss]

/-- Witness for C10 on the all-missing environment. -/
theorem file_parser_total_witness :
    "error" ∈ (parse_pdf envT "a.pdf").keys ∧
    (parse_all_files envT).get? 0 =
      some (ParsedDict.missing "Antti_Ilmanen_Expected_Returns_A.pdf" notFoundMsg) :=
  ⟨(((file_parser_total envT).1 "a.pdf").2.2.1 "io" rfl).1,
   (file_parser_total envT).2.2.2.2 0 "Antti_Ilmanen_Expected_Returns_A.pdf" rfl rfl⟩

/- ------------------------------------------------------------------ -/
/- Claim C9: idempotence of the cleaner                                -/
/- ------------------------------------------------------------------ -/

/-- Files surviving the duplicate pass carry no registered url. -/
theorem rdAux_mem_url :
    ∀ (l : List JFile) (seen : List String) (f : JFile),
      f ∈ rdAux seen l → relevantP f → f.url ∉ seen := by
  intro l
  induction l with
  | nil =>
    intro seen f hf
    cases hf
  | cons g rest ih =>
    intro seen f hf hrel
    unfold rdAux at hf
    by_cases hs : scannedF g = true
    · rw [if_pos hs] at hf
      by_cases hu : g.url = ""
      · rw [if_pos hu] at hf
        rcases List.mem_cons.mp hf with rfl | hf
        · exact absurd hu hrel.2
        · exact ih seen f hf hrel
      · rw [if_neg hu] at hf
        by_cases hseen : g.url ∈ seen
        · rw [if_pos hseen] at hf
          exact ih seen f hf hrel
        · rw [if_neg hseen] at hf
          rcases List.mem_cons.mp hf with rfl | hf
          · exact hseen
          · intro hmem
            exact ih _ f hf hrel (List.mem_cons_of_mem _ hmem)
    · rw [if_neg hs] at hf
      rcases List.mem_cons.mp hf with rfl | hf
      · exact absurd hrel.1 hs
      · exact ih seen f hf hrel

/-- The duplicate pass leaves pairwise distinct urls among registered
files. -/
theorem rdAux_pairwise :
    ∀ (l : List JFile) (seen : List String), List.Pairwise urlP (rdAux seen l) := by
  intro l
  induction l with
  | nil =>
    intro seen
    exact List.Pairwise.nil
  | cons g rest ih =>
    intro seen
    unfold rdAux
    by_cases hs : scannedF g = true
    · rw [if_pos hs]
      by_cases hu : g.url = ""
      · rw [if_pos hu]
        refine List.Pairwise.cons ?_ (ih seen)
        intro f _ hrelg _
        exact absurd hu hrelg.2
      · rw [if_neg hu]
        by_cases hseen : g.url ∈ seen
        · rw [if_pos hseen]
          exact ih seen
        · rw [if_neg hseen]
          refine List.Pairwise.cons ?_ (ih _)
          intro f hf _ hrelf heq
          exact rdAux_mem_url rest _ f hf hrelf (heq ▸ List.mem_cons_self _ _)
    · rw [if_neg hs]
      refine List.Pairwise.cons ?_ (ih seen)
      intro f _ hrelg _
      exact absurd hrelg.1 hs

/-- On a directory whose registered files already have pairwise distinct
unregistered urls, the duplicate pass deletes nothing. -/
theorem rdAux_eq_self :
    ∀ (l : List JFile) (seen : List String),
      (∀ f ∈ l, relevantP f → f.url ∉ seen) → List.Pairwise urlP l →
      rdAux seen l = l := by
  intro l
  induction l with
  | nil =>
    intro seen _ _
    rfl
  | cons g rest ih =>
    intro seen hsf hpw
    obtain ⟨hg, htail⟩ := List.pairwise_cons.mp hpw
    unfold rdAux
    by_cases hs : scannedF g = true
    · rw [if_pos hs]
      by_cases hu : g.url = ""
      · rw [if_pos hu]
        congr 1
        exact ih seen (fun f hf => hsf f (List.mem_cons_of_mem _ hf)) htail
      · have hrelg : relevantP g := ⟨hs, hu⟩
        have hseen : g.url ∉ seen := hsf g (List.mem_cons_self _ _) hrelg
        rw [if_neg hu, if_neg hseen]
        congr 1
        refine ih _ ?_ htail
        intro f hf hrelf hmem
        rcases List.mem_cons.mp hmem with heq | hmem2
        · exact hg f hf hrelg hrelf heq.symm
        · exact hsf f (List.mem_cons_of_mem _ hf) hrelf hmem2
    · rw [if_neg hs]
      congr 1
      exact ih seen (fun f hf => hsf f (List.mem_cons_of_mem _ hf)) htail

/-- The numbering pass is the live directory plus the created copies. -/
theorem rnAux_eq : ∀ (todo cur : List JFile), rnAux cur todo = cur ++ rnNew cur todo := by
  intro todo
  induction todo with
  | nil =>
    intro cur
    simp [rnAux, rnNew]
  | cons f rest ih =>
    intro cur
    unfold rnAux rnNew
    split
    · split
      · rw [ih]
        simp
      · exact ih cur
    · exact ih cur

/-- Without index-prefixed files the numbering pass creates nothing. -/
theorem rnNew_nil :
    ∀ (todo cur : List JFile), (∀ f ∈ todo, rnCond f = false) → rnNew cur todo = [] := by
  intro todo
  induction todo with
  | nil =>
    intro cur _
    rfl
  | cons f rest ih =>
    intro cur h
    unfold rnNew
    rw [if_neg ?_]
    · exact ih cur fun g hg => h g (List.mem_cons_of_mem _ hg)
    · simp [h f (List.mem_cons_self _ _)]

/-- url-distinctness between registered files is symmetric. -/
theorem urlP_symm : Symmetric urlP := fun _ _ h hy hx => (h hx hy).symm

/-- Creating the unprefixed copies preserves url-distinctness among the
files that survive step 3: every copy inherits the url of a distinct
index-prefixed original, which step 3 deletes. -/
theorem rnNew_pairwise :
    ∀ (todo cur : List JFile),
      List.Pairwise urlP todo →
      (∀ f ∈ todo, ∀ g ∈ cur, rnCond f = true → f.url ≠ "" → relevantP g →
        rnCond g = false → f.url ≠ g.url) →
      List.Pairwise urlQ cur →
      List.Pairwise urlQ (cur ++ rnNew cur todo) := by
  intro todo
  induction todo with
  | nil =>
    intro cur _ _ hq
    simpa [rnNew] using hq
  | cons f rest ih =>
    intro cur hpw hH hq
    obtain ⟨hg, htail⟩ := List.pairwise_cons.mp hpw
    unfold rnNew
    by_cases hc : rnCond f = true
    · rw [if_pos hc]
      split
      · rename_i he
        rw [List.append_cons]
        refine ih (cur ++ [{ f with name := dropS 4 f.name }]) htail ?_ ?_
        · intro f2 hf2 g hgm hcf2 huf2 hrelg hcg
          rcases List.mem_append.mp hgm with hgc | hgs
          · exact hH f2 (List.mem_cons_of_mem _ hf2) g hgc hcf2 huf2 hrelg hcg
          · obtain rfl := List.mem_singleton.mp hgs
            have hsf : scannedF f = true := by
              have hc2 := hc
              simp only [rnCond, Bool.and_eq_true] at hc2
              exact hc2.1
            have hsf2 : scannedF f2 = true := by
              have hc2 := hcf2
              simp only [rnCond, Bool.and_eq_true] at hc2
              exact hc2.1
            have hrelf : relevantP f := ⟨hsf, hrelg.2⟩
            have hrelf2 : relevantP f2 := ⟨hsf2, huf2⟩
            intro heq
            exact hg f2 hf2 hrelf hrelf2 heq.symm
        · refine List.pairwise_append.mpr ⟨hq, by simp [urlQ], ?_⟩
          intro g hgm b hbm
          obtain rfl := List.mem_singleton.mp hbm
          intro hcg hcc hrelg hrelc
          intro heq
          exact hH f (List.mem_cons_self _ _) g hgm hc hrelc.2 hrelg hcg heq.symm
      · exact ih cur htail
          (fun f2 hf2 => hH f2 (List.mem_cons_of_mem _ hf2)) hq
    · rw [if_neg hc]
      exact ih cur htail
        (fun f2 hf2 => hH f2 (List.mem_cons_of_mem _ hf2)) hq

/-- Claim C9: running DirectoryCleaner.run a second time on a directory it
has already processed yields exactly the same file set: after one run the
directory has no checkpoint file, no index-prefixed file, and pairwise
distinct urls among registered files, so every later pass is the
identity. -/
theorem cleaner_idempotent (d : List JFile) :
    cleanerRun (cleanerRun d) = cleanerRun d := by
  have hP1 : List.Pairwise urlP (remove_duplicates d) := rdAux_pairwise d []
  have hQ2 : List.Pairwise urlQ (remove_numbering (remove_duplicates d)) := by
    rw [remove_numbering, rnAux_eq]
    refine rnNew_pairwise (remove_duplicates d) (remove_duplicates d) hP1 ?_
      (hP1.imp fun h _ _ => h)
    intro f hf g hgm hcf huf hrelg hcg
    have hne : f ≠ g := by
      intro heq
      rw [heq] at hcf
      rw [hcf] at hcg
      cases hcg
    have hsf : scannedF f = true := by
      have hc2 := hcf
      simp only [rnCond, Bool.and_eq_true] at hc2
      exact hc2.1
    exact hP1.forall urlP_symm hf hgm hne ⟨hsf, huf⟩ hrelg
  have hmem3 : ∀ f ∈ remove_numbered_files (remove_numbering (remove_duplicates d)),
      rnCond f = false := by
    intro f hf
    rw [remove_numbered_files] at hf
    have := List.of_mem_filter hf
    simpa using this
  have hQ3 : List.Pairwise urlQ
      (remove_numbered_files (remove_numbering (remove_duplicates d))) :=
    hQ2.sublist (List.filter_sublist _)
  have hP3 : List.Pairwise urlP
      (remove_numbered_files (remove_numbering (remove_duplicates d))) :=
    List.Pairwise.imp_of_mem (fun ha hb hq => hq (hmem3 _ ha) (hmem3 _ hb)) hQ3
  have hsub4 : List.Sublist (cleanerRun d)
      (remove_numbered_files (remove_numbering (remove_duplicates d))) :=
    List.filter_sublist _
  have hP4 : List.Pairwise urlP (cleanerRun d) := hP3.sublist hsub4
  have hmem4rn : ∀ f ∈ cleanerRun d, rnCond f = false :=
    fun f hf => hmem3 f (hsub4.subset hf)
  have hmem4ck : ∀ f ∈ cleanerRun d,
      (!(startsWithS f.name ckHead && jsonName f.name)) = true := by
    intro f hf
    rw [cleanerRun, remove_checkpoints] at hf
    exact (List.mem_filter.mp hf).2
  show remove_checkpoints (remove_numbered_files (remove_numbering
    (remove_duplicates (cleanerRun d)))) = cleanerRun d
  rw [show remove_duplicates (cleanerRun d) = cleanerRun d from
      rdAux_eq_self (cleanerRun d) [] (fun f _ _ h => List.not_mem_nil _ h) hP4]
  rw [show remove_numbering (cleanerRun d) = cleanerRun d by
      rw [remove_numbering, rnAux_eq, rnNew_nil _ _ hmem4rn, List.append_nil]]
  rw [show remove_numbered_files (cleanerRun d) = cleanerRun d by
      rw [remove_numbered_files]
      refine List.filter_eq_self.mpr ?_
      intro f hf
      simpa using hmem4rn f hf]
  rw [remove_checkpoints]
  refine List.filter_eq_self.mpr ?_
  intro f hf
  exact hmem4ck f hf
